import Mathlib

/-
Verification development for the dso-api schema-driven presentation engine.

Embedded components:
  * dso_api/dynamic_api/permissions.py  (validate_request, _check_field_access, parse_filter)
  * rest_framework_dso/paginator.py     (DSOPaginator.page, DSOPage)
  * dso_api/dynamic_api/serializers/factories.py (serializer_factory memoization and
    recursion guard)

The schema model (schematools DatasetTableSchema / DatasetFieldSchema) and the scope
principal (schematools UserScopes) are external collaborators; they are modelled as
plain data with the operations the embedded code uses (get_field_by_id, related_table,
related_field_ids, has_field_access, get_active_profile_tables).
-/

namespace DsoApi

/-! ### Schema model (external collaborator, shapes per spec section 3 and 6) -/

/-- Field descriptor: id, optional related table (by table id), the identifier
components of the related table that the relation refers to, and subfields
(object-typed fields have subfields; `get_field_by_id` on a field searches them). -/
inductive FieldSchema : Type where
  | mk : String → Option String → List String → List FieldSchema → FieldSchema

def FieldSchema.id : FieldSchema → String
  | .mk i _ _ _ => i

def FieldSchema.relatedTableId : FieldSchema → Option String
  | .mk _ r _ _ => r

def FieldSchema.relatedFieldIds : FieldSchema → List String
  | .mk _ _ ids _ => ids

def FieldSchema.subfields : FieldSchema → List FieldSchema
  | .mk _ _ _ sub => sub

/-- Temporal descriptor of a table: the version identifier field and the
dimensions map, each dimension naming its start and end boundary fields. -/
structure TemporalSchema where
  identifierField : String
  dimensions : List (String × String × String)

/-- Table descriptor. -/
structure TableSchema where
  id : String
  datasetId : String
  fields : List FieldSchema
  temporal : Option TemporalSchema

/-- A dataset environment: the tables relations can resolve to. -/
abbrev Dataset := List TableSchema

def findTable (ds : Dataset) (tid : String) : Option TableSchema :=
  ds.find? (fun t => t.id == tid)

def TableSchema.getFieldBy (t : TableSchema) (fid : String) : Option FieldSchema :=
  t.fields.find? (fun f => f.id == fid)

/-- The walk in `_check_field_access` holds either a table or a field schema. -/
inductive SchemaPos : Type where
  | table : TableSchema → SchemaPos
  | field : FieldSchema → SchemaPos

/-- `schema.get_field_by_id(part)`: on a table searches the table's fields,
on a field searches the subfields; `none` models `SchemaObjectNotFound`. -/
def getFieldById (pos : SchemaPos) (fid : String) : Option FieldSchema :=
  match pos with
  | .table t => t.getFieldBy fid
  | .field f => f.subfields.find? (fun g => g.id == fid)

/-- `field.related_table`: resolve the relation target in the dataset. -/
def resolveRelated (ds : Dataset) (f : FieldSchema) : Option TableSchema :=
  match f.relatedTableId with
  | none => none
  | some tid => findTable ds tid

/-! ### permissions.py: _check_field_access -/

/-- The distinct failure conditions of `_check_field_access` / `validate_request`.
`filterSyntaxRelEnd` is the error with message constant relation-key-should-appear-at-
the-end; `filterSyntaxNotField` the final does-not-refer-to-a-field error;
`indexError` models the Python IndexError on `idents[0]` for an empty identifier list;
`outOfFuel` is the marker for exhausted recursion fuel (the Python loop can diverge on
a malformed cyclic schema, so the embedding is fuelled). -/
inductive AccessError : Type where
  | schemaObjectNotFound
  | filterSyntaxRelEnd
  | filterSyntaxNotField
  | permissionDenied
  | indexError
  | outOfFuel
  deriving DecidableEq

/-- `field_name.split(".", 1)` on the character list: the part before the first dot
and the remainder (empty when there is no dot). -/
def splitOnceChars : List Char → List Char × List Char
  | [] => ([], [])
  | c :: cs =>
    if c = '.' then ([], cs)
    else ((splitOnceChars cs).1.cons c, (splitOnceChars cs).2)

/-- `part.endswith("Id")`. -/
def endsWithIdChars (part : List Char) : Bool :=
  match part.reverse with
  | 'd' :: 'I' :: _ => true
  | _ => false

/-- `part[:-len("Id")]`. -/
def dropIdSuffix (part : List Char) : List Char :=
  part.take (part.length - 2)

/-- The loop over `idents` in the relation block of `_check_field_access`:
resolve each identifier component in the related table and require field access,
raising the first failure. -/
def checkIdents (sc : FieldSchema → Bool) (rel : TableSchema) :
    List String → Except AccessError Unit
  | [] => .ok ()
  | i :: is =>
    match rel.getFieldBy i with
    | none => .error .schemaObjectNotFound
    | some g => if sc g then checkIdents sc rel is else .error .permissionDenied

/-- The hop-by-hop loop of `_check_field_access` (permissions.py lines 180-234),
fuelled because the `-Id` shorthand can re-extend the remaining path. -/
def checkAccessGo (ds : Dataset) (sc : FieldSchema → Bool) :
    Nat → List Char → SchemaPos → Except AccessError Unit
  | 0, _, _ => .error .outOfFuel
  | Nat.succ fuel, fieldName, pos =>
    if fieldName.isEmpty then
      match pos with
      | .table _ => .error .filterSyntaxNotField
      | .field _ => .ok ()
    else
      let pr := splitOnceChars fieldName
      match getFieldById pos (String.mk pr.1) with
      | some f =>
        if sc f then
          match resolveRelated ds f with
          | none => checkAccessGo ds sc fuel pr.2 (SchemaPos.field f)
          | some rel =>
            match checkIdents sc rel f.relatedFieldIds with
            | .error e => .error e
            | .ok _ => checkAccessGo ds sc fuel pr.2 (SchemaPos.table rel)
        else .error .permissionDenied
      | none =>
        if endsWithIdChars pr.1 then
          if pr.2.isEmpty then
            match getFieldById pos (String.mk (dropIdSuffix pr.1)) with
            | none => .error .schemaObjectNotFound
            | some f =>
              match resolveRelated ds f with
              | none => .error .schemaObjectNotFound
              | some rel =>
                match f.relatedFieldIds with
                | [] => .error .indexError
                | i0 :: _ => checkAccessGo ds sc fuel i0.data (SchemaPos.table rel)
          else .error .filterSyntaxRelEnd
        else .error .schemaObjectNotFound

/-- `_check_field_access(full_field_name, scopes, schema)`. The fuel
`length + 2` covers one loop iteration per path segment plus the one extra
iteration an `-Id` shorthand hop appends. -/
def check_field_access (ds : Dataset) (sc : FieldSchema → Bool)
    (path : String) (pos : SchemaPos) : Except AccessError Unit :=
  checkAccessGo ds sc (path.length + 2) path.data pos

/-- How the resolution-only walk over a dotted path can end. -/
inductive WalkEnd : Type where
  | onField
  | onTable
  | resolveFail
  | noFuel
  deriving DecidableEq

/-- The resolution-only walk: the same hop-by-hop traversal as `checkAccessGo`
with the authorization checks erased.  It returns the fields the source code
access-checks, in order, and how the walk terminated.  At an `-Id` shorthand hop
the relation field itself is resolved but never access-checked by the source,
so it is not collected here. -/
def walkGo (ds : Dataset) : Nat → List Char → SchemaPos → List FieldSchema × WalkEnd
  | 0, _, _ => ([], .noFuel)
  | Nat.succ fuel, fieldName, pos =>
    if fieldName.isEmpty then
      match pos with
      | .table _ => ([], .onTable)
      | .field _ => ([], .onField)
    else
      let pr := splitOnceChars fieldName
      match getFieldById pos (String.mk pr.1) with
      | some f =>
        match resolveRelated ds f with
        | none =>
          (f :: (walkGo ds fuel pr.2 (SchemaPos.field f)).1,
           (walkGo ds fuel pr.2 (SchemaPos.field f)).2)
        | some rel =>
          match identFields rel f.relatedFieldIds with
          | none => ([f], .resolveFail)
          | some gs =>
            (f :: gs ++ (walkGo ds fuel pr.2 (SchemaPos.table rel)).1,
             (walkGo ds fuel pr.2 (SchemaPos.table rel)).2)
      | none =>
        if endsWithIdChars pr.1 then
          if pr.2.isEmpty then
            match getFieldById pos (String.mk (dropIdSuffix pr.1)) with
            | none => ([], .resolveFail)
            | some f =>
              match resolveRelated ds f with
              | none => ([], .resolveFail)
              | some rel =>
                match f.relatedFieldIds with
                | [] => ([], .resolveFail)
                | i0 :: _ => walkGo ds fuel i0.data (SchemaPos.table rel)
          else ([], .resolveFail)
        else ([], .resolveFail)
where
  /-- Resolve every identifier component of a relation target. -/
  identFields (rel : TableSchema) : List String → Option (List FieldSchema)
    | [] => some []
    | i :: is =>
      match rel.getFieldBy i with
      | none => none
      | some g =>
        match identFields rel is with
        | none => none
        | some gs => some (g :: gs)

/-- The walk of `check_field_access`, resolution only, with matching fuel. -/
def walkFields (ds : Dataset) (path : String) (pos : SchemaPos) :
    List FieldSchema × WalkEnd :=
  walkGo ds (path.length + 2) path.data pos

/-- The hop-by-hop walk exactly as claim C1 words it: every field resolved on
the walk is collected, including the relation field resolved at an `-Id`
shorthand hop (which the source resolves but does not access-check). -/
def claimWalkGo (ds : Dataset) : Nat → List Char → SchemaPos → List FieldSchema × WalkEnd
  | 0, _, _ => ([], .noFuel)
  | Nat.succ fuel, fieldName, pos =>
    if fieldName.isEmpty then
      match pos with
      | .table _ => ([], .onTable)
      | .field _ => ([], .onField)
    else
      let pr := splitOnceChars fieldName
      match getFieldById pos (String.mk pr.1) with
      | some f =>
        match resolveRelated ds f with
        | none =>
          (f :: (claimWalkGo ds fuel pr.2 (SchemaPos.field f)).1,
           (claimWalkGo ds fuel pr.2 (SchemaPos.field f)).2)
        | some rel =>
          match walkGo.identFields rel f.relatedFieldIds with
          | none => ([f], .resolveFail)
          | some gs =>
            (f :: gs ++ (claimWalkGo ds fuel pr.2 (SchemaPos.table rel)).1,
             (claimWalkGo ds fuel pr.2 (SchemaPos.table rel)).2)
      | none =>
        if endsWithIdChars pr.1 then
          if pr.2.isEmpty then
            match getFieldById pos (String.mk (dropIdSuffix pr.1)) with
            | none => ([], .resolveFail)
            | some f =>
              match resolveRelated ds f with
              | none => ([], .resolveFail)
              | some rel =>
                match f.relatedFieldIds with
                | [] => ([], .resolveFail)
                | i0 :: _ =>
                  (f :: (claimWalkGo ds fuel i0.data (SchemaPos.table rel)).1,
                   (claimWalkGo ds fuel i0.data (SchemaPos.table rel)).2)
          else ([], .resolveFail)
        else ([], .resolveFail)

/-- Claim-worded walk of a whole path, with the fuel of `check_field_access`. -/
def claimWalk (ds : Dataset) (path : String) (pos : SchemaPos) :
    List FieldSchema × WalkEnd :=
  claimWalkGo ds (path.length + 2) path.data pos

/-! ### permissions.py: parse_filter and validate_request -/

/-- The failure conditions of `validate_request`: the method rejection
(`PermissionDenied` with the request-not-allowed message), the two bracket
syntax errors of `parse_filter`, and the errors bubbling up from
`_check_field_access`. -/
inductive ReqError : Type where
  | methodNotAllowed
  | missingOpenBracket
  | missingCloseBracket
  | access : AccessError → ReqError
  deriving DecidableEq

/-- Index of the first open bracket, `v.find("[")` (`none` for -1). -/
def findBracket : List Char → Option Nat
  | [] => none
  | c :: cs => if c = '[' then some 0 else (findBracket cs).map (· + 1)

/-- `parse_filter(v)`: split a filter query key into field name and operator. -/
def parse_filter (v : String) : Except ReqError (String × String) :=
  match findBracket v.data with
  | none =>
    if v.data.contains (']') then .error .missingOpenBracket
    else .ok (v, ("exact"))
  | some bracket =>
    if v.data.getLast? = some (']') then
      .ok (String.mk (v.data.take bracket),
           String.mk ((v.data.drop (bracket + 1)).dropLast))
    else .error .missingCloseBracket

/-- A profile table grant: its mandatory filter sets. -/
structure Profile where
  mandatoryFiltersets : List (List String)

/-- The scope principal as `validate_request` consumes it: the field access
capability and the active profile tables per (dataset, table). -/
structure UserScopes where
  hasFieldAccess : FieldSchema → Bool
  activeProfiles : String → String → List Profile

/-- The `mandatory` set collected in `validate_request`: the union of all
mandatory filter sets of all active profile tables for this dataset/table. -/
def mandatoryFilters (sc : UserScopes) (schema : TableSchema) : List String :=
  ((sc.activeProfiles schema.datasetId schema.id).map
    (fun p => p.mandatoryFiltersets.flatten)).flatten

/-- `value.split(",")` on the character list. -/
def splitCommaChars : List Char → List (List Char)
  | [] => [[]]
  | c :: cs =>
    if c = ',' then [] :: splitCommaChars cs
    else
      match splitCommaChars cs with
      | [] => [[c]]
      | p :: ps => (c :: p) :: ps

/-- Leading descending-sort marker: `field[1:] if field.startswith("-")`. -/
def stripDescMarker : List Char → List Char
  | '-' :: rest => rest
  | l => l

/-- Field check of one sort key, as in the `_sort` branch. -/
def checkSortField (ds : Dataset) (sc : UserScopes) (schema : TableSchema)
    (fieldChars : List Char) : Except ReqError Unit :=
  (check_field_access ds sc.hasFieldAccess
      (String.mk (stripDescMarker fieldChars)) (SchemaPos.table schema)).mapError .access

/-- The `_sort` / `sorteer` branch: every comma-separated key of every value is
field-checked, first failure raised. -/
def checkSortValues (ds : Dataset) (sc : UserScopes) (schema : TableSchema) :
    List String → Except ReqError Unit
  | [] => .ok ()
  | v :: vs =>
    match goFields (splitCommaChars v.data) with
    | .error e => .error e
    | .ok _ => checkSortValues ds sc schema vs
where
  goFields : List (List Char) → Except ReqError Unit
    | [] => .ok ()
    | f :: fs =>
      match checkSortField ds sc schema f with
      | .error e => .error e
      | .ok _ => goFields fs

/-- The dimension lookup `schema.temporal.dimensions.get(field_name)`. -/
def lookupDimension (temp : TemporalSchema) (name : String) :
    Option (String × String) :=
  (temp.dimensions.find? (fun d => d.1 == name)).map (fun d => d.2)

/-- Processing of one query parameter in the loop of `validate_request`. -/
def checkParam (ds : Dataset) (sc : UserScopes) (schema : TableSchema)
    (allowed : List String) (key : String) (values : List String) :
    Except ReqError Unit :=
  if key ∈ allowed then .ok ()
  else if key = ("_sort") ∨ key = ("sorteer") then
    checkSortValues ds sc schema values
  else
    match parse_filter key with
    | .error e => .error e
    | .ok (fieldName, _op) =>
      if key ∈ mandatoryFilters sc schema ∨ fieldName ∈ mandatoryFilters sc schema then
        .ok ()
      else
        match schema.temporal with
        | some temp =>
          match lookupDimension temp fieldName with
          | some se =>
            match (check_field_access ds sc.hasFieldAccess se.1
                (SchemaPos.table schema)).mapError ReqError.access with
            | .error e => .error e
            | .ok _ =>
              (check_field_access ds sc.hasFieldAccess se.2
                (SchemaPos.table schema)).mapError ReqError.access
          | none =>
            (check_field_access ds sc.hasFieldAccess fieldName
              (SchemaPos.table schema)).mapError ReqError.access
        | none =>
          (check_field_access ds sc.hasFieldAccess fieldName
            (SchemaPos.table schema)).mapError ReqError.access

/-- The parameter loop of `validate_request`, first failure raised. -/
def checkParams (ds : Dataset) (sc : UserScopes) (schema : TableSchema)
    (allowed : List String) : List (String × List String) → Except ReqError Unit
  | [] => .ok ()
  | (key, values) :: rest =>
    match checkParam ds sc schema allowed key values with
    | .error e => .error e
    | .ok _ => checkParams ds sc schema allowed rest

/-- `validate_request(request, schema, allowed)` (permissions.py lines 119-177):
OPTIONS passes, any other non-GET method is `PermissionDenied`, the bbga dataset
bypasses all filter validation, otherwise every query parameter is validated. -/
def validate_request (ds : Dataset) (sc : UserScopes) (method : String)
    (queryParams : List (String × List String)) (schema : TableSchema)
    (allowed : List String) : Except ReqError Unit :=
  if method = ("OPTIONS") then .ok ()
  else if method ≠ ("GET") then .error .methodNotAllowed
  else if schema.datasetId = ("bbga") then .ok ()
  else checkParams ds sc schema allowed queryParams

/-! ### paginator.py: DSOPaginator -/

/-- Python list slice `l[a:b]` for `0 ≤ a ≤ b`. -/
def pySlice {α : Type} (l : List α) (a b : Nat) : List α :=
  (l.drop a).take (b - a)

/-- The paginator: the backing row sequence and the page size. -/
structure DSOPaginator (α : Type) where
  objectList : List α
  perPage : Nat

/-- Page failure conditions: `EmptyPage` for numbers below 1, `Http404` for
navigation beyond the last page, and the fuel marker of the embedding. -/
inductive PageError : Type where
  | emptyPage
  | http404
  | outOfFuel
  deriving DecidableEq

/-- `DSOPaginator.validate_number` for an integral argument: numbers below 1
raise `EmptyPage`.  (The float and non-numeric branches raise
`PageNotAnInteger` before this point and are not modelled.) -/
def validate_number (number : Int) : Except PageError Nat :=
  if number < 1 then .error .emptyPage else .ok number.toNat

/-- The object list handed to the page by `DSOPaginator.page`:
`object_list[bottom : top + sentinel]` with `bottom = (number-1)*per_page`,
`top = bottom + per_page` and `sentinel = 1`. -/
def DSOPaginator.pageObjectList {α : Type} (p : DSOPaginator α) (number : Nat) :
    List α :=
  let bottom := (number - 1) * p.perPage
  let top := bottom + p.perPage
  pySlice p.objectList bottom (top + 1)

/-! ### paginator.py: DSOPage

The page's `object_list` is wrapped in an `ObservableIterator`
(rest_framework_dso/embedding.py, which is not part of the source sample).
Modelled from the spec: the observable lazy sequence counts every pull in
`number_returned`, reports emptiness without consuming, notifies the item
observer (`DSOPage._watch_object_list`) on every produced item, and on
exhaustion fires the finalize callback with the empty-flag
(`iterator_is_empty` true exactly when nothing was ever produced), after
which `is_iterated` is true and further pulls just signal stop-iteration. -/

/-- The mutable state of a `DSOPage` together with its observable iterator. -/
structure PageState (α : Type) where
  remaining : List α
  numberReturned : Nat
  isIterated : Bool
  number : Nat
  perPage : Nat
  length : Nat
  hasNext : Option Bool

/-- `DSOPage._watch_object_list` (paginator.py lines 225-254) together with the
internal sentinel pull it performs; `sentinelGo` models the `next()` call on the
observable iterator made from inside the callback, whose produced item is
discarded.  Fuelled because callback and pull invoke each other (the static
chain depth is at most two watches). -/
def watchGo {α : Type} : Nat → PageState α → Bool → Except PageError (PageState α)
  | 0, _, _ => .error .outOfFuel
  | Nat.succ fuel, st, iteratorIsEmpty =>
    if iteratorIsEmpty ∧ 1 < st.number then .error .http404
    else
      let st₁ : PageState α :=
        { st with
          length := min st.perPage st.numberReturned
          hasNext := some (decide (st.perPage < st.numberReturned)) }
      if st₁.numberReturned = st₁.perPage then
        -- Sentinel pull, modelled from the spec: one `next()` on the
        -- observable iterator, which notifies `_watch_object_list` of the
        -- produced item, or of exhaustion with the empty-flag; on an already
        -- exhausted iterator only stop-iteration is signalled.  The pulled
        -- item itself is thrown away.
        if st₁.isIterated then .ok st₁
        else
          match st₁.remaining with
          | [] =>
            watchGo fuel { st₁ with isIterated := true }
              (decide (st₁.numberReturned = 0))
          | _ :: rest =>
            watchGo fuel
              { st₁ with remaining := rest, numberReturned := st₁.numberReturned + 1 }
              false
      else .ok st₁

/-- One pull by the consumer (the streaming renderer) on the page's observable
iterator.  Modelled from the spec: a produced item is counted and reported to
the observer before being yielded; exhaustion fires the finalize callback with
the empty-flag and yields nothing.  The fuel 3 covers the maximal
watch/sentinel chain. -/
def consumerNext {α : Type} (st : PageState α) :
    Except PageError (Option α × PageState α) :=
  if st.isIterated then .ok (none, st)
  else
    match st.remaining with
    | [] =>
      match watchGo 3 { st with isIterated := true }
          (decide (st.numberReturned = 0)) with
      | .error e => .error e
      | .ok st' => .ok (none, st')
    | x :: rest =>
      match watchGo 3
          { st with remaining := rest, numberReturned := st.numberReturned + 1 }
          false with
      | .error e => .error e
      | .ok st' => .ok (some x, st')

/-- `DSOPage.__init__` for a non-queryset object list: wrap it in the
observable iterator and, when the list is empty, invoke
`_watch_object_list(None, None, True)` immediately. -/
def DSOPage.init {α : Type} (objectList : List α) (number perPage : Nat) :
    Except PageError (PageState α) :=
  let st : PageState α :=
    { remaining := objectList, numberReturned := 0, isIterated := false
      number := number, perPage := perPage, length := 0, hasNext := none }
  if objectList.isEmpty then watchGo 3 st true else .ok st

/-- `DSOPage.__len__`: simply the `_length` bookkeeping field. -/
def DSOPage.len {α : Type} (st : PageState α) : Nat :=
  st.length

/-- `DSOPage.has_next`: `None` (unknown) until the object list has been fully
iterated, afterwards the `_has_next` bookkeeping field. -/
def DSOPage.has_next {α : Type} (st : PageState α) : Option Bool :=
  if st.isIterated then st.hasNext else none

/-- Repeated consumer pulls collecting the yielded items, with explicit fuel. -/
def drainGo {α : Type} : Nat → PageState α → Except PageError (List α × PageState α)
  | 0, _ => .error .outOfFuel
  | Nat.succ fuel, st =>
    match consumerNext st with
    | .error e => .error e
    | .ok (none, st') => .ok ([], st')
    | .ok (some x, st') =>
      match drainGo fuel st' with
      | .error e => .error e
      | .ok (xs, st'') => .ok (x :: xs, st'')

/-- Fully drain a page, as the streaming renderer does: pull until the iterator
signals exhaustion. -/
def DSOPage.drain {α : Type} (st : PageState α) :
    Except PageError (List α × PageState α) :=
  drainGo (st.remaining.length + 1) st

/-- Exactly `k` consumer pulls, to observe intermediate page states. -/
def pullK {α : Type} : Nat → PageState α → Except PageError (List α × PageState α)
  | 0, st => .ok ([], st)
  | Nat.succ k, st =>
    match consumerNext st with
    | .error e => .error e
    | .ok (none, st') => .ok ([], st')
    | .ok (some x, st') =>
      match pullK k st' with
      | .error e => .error e
      | .ok (xs, st'') => .ok (x :: xs, st'')

/-! ### factories.py: serializer_factory memoization and recursion guard

The serializer classes are dynamically assembled Django REST Framework classes;
for the memoization and recursion-guard claims the constructed class is
abstracted to its determining inputs (the spec: blueprint construction is a
pure function of table identity and expansion depth).  Model identity is the
model name.  The `LRUCache` eviction (maxsize 100000) and the eager recursion
of `_generate_nested_relations` into nested tables are not modelled. -/

/-- The constructed serializer class, determined by (model identity, depth). -/
structure SerializerClass where
  modelName : String
  depth : Nat
  deriving DecidableEq

/-- `MAX_EMBED_NESTING_LEVEL` (factories.py line 54). -/
def MAX_EMBED_NESTING_LEVEL : Nat := 10

/-- The `_serializer_factory_cache` contents. -/
abbrev SFCache := List ((String × Nat) × SerializerClass)

/-- `_serializer_cache_key(model, depth, nesting_level)`: the nesting level is
dropped so it does not bypass the cache. -/
def serializer_cache_key (model : String) (depth : Nat) (_nesting_level : Nat) :
    String × Nat :=
  (model, depth)

def cacheLookup (c : SFCache) (k : String × Nat) : Option SerializerClass :=
  (c.find? (fun e => e.1 == k)).map (fun e => e.2)

/-- Failure conditions of `serializer_factory`: the recursion-in-embedded-
nesting `RuntimeError`. -/
inductive FactoryError : Type where
  | recursionLimit
  deriving DecidableEq

/-- `serializer_factory(model, depth, nesting_level)` under the `@cached`
decorator (factories.py lines 142-177): look the key up first; on a miss the
body raises the recursion error when `nesting_level >= MAX_EMBED_NESTING_LEVEL`,
otherwise constructs the class and the result is inserted under the key. -/
def serializer_factory (cache : SFCache) (model : String)
    (depth nesting_level : Nat) : Except FactoryError (SerializerClass × SFCache) :=
  match cacheLookup cache (serializer_cache_key model depth nesting_level) with
  | some v => .ok (v, cache)
  | none =>
    if MAX_EMBED_NESTING_LEVEL ≤ nesting_level then .error .recursionLimit
    else
      let v : SerializerClass := { modelName := model, depth := depth }
      .ok (v, (serializer_cache_key model depth nesting_level, v) :: cache)

/-! ### Concrete fixtures for counterexamples and witnesses

A dataset with a `refers` table holding a plain field `name` and a relation
field `base` to table `base`, whose single identifier component is `id`
(mirroring the relationauth test schema of the repository). -/

def identF : FieldSchema := .mk ("id") none [] []
def nameF : FieldSchema := .mk ("name") none [] []
def baseF : FieldSchema := .mk ("base") (some ("base")) [("id")] []

def baseT : TableSchema :=
  { id := ("base"), datasetId := ("ds"), fields := [identF], temporal := none }

def refersT : TableSchema :=
  { id := ("refers"), datasetId := ("ds"), fields := [nameF, baseF], temporal := none }

def dsEx : Dataset := [refersT, baseT]

/-- Scopes granting access to every field except the relation field `base`. -/
def scopesNoRel : FieldSchema → Bool := fun f => !(f.id == ("base"))

/-- A profile table whose mandatory filter set contains the malformed key. -/
def profBadKey : Profile := { mandatoryFiltersets := [[("foo]")]] }

/-- A profile table whose mandatory filter set contains the field `foo`. -/
def profFoo : Profile := { mandatoryFiltersets := [[("foo")]] }

/-- A scope principal with no field access at all but with an active profile
whose mandatory set holds the malformed key. -/
def scopesBadKey : UserScopes :=
  { hasFieldAccess := fun _ => false, activeProfiles := fun _ _ => [profBadKey] }

/-- A scope principal with no field access at all but with an active profile
whose mandatory set holds `foo`. -/
def scopesFoo : UserScopes :=
  { hasFieldAccess := fun _ => false, activeProfiles := fun _ _ => [profFoo] }

/-- A scope principal with no field access and no profiles. -/
def scopesNone : UserScopes :=
  { hasFieldAccess := fun _ => false, activeProfiles := fun _ _ => [] }

/-! ### Theorems -/

/-- Sanity check of the filter grammar (spec section 8): a bare field name
parses with the default exact operator, a bracketed operator is extracted,
and unbalanced brackets are syntax errors. -/
theorem parse_filter_examples :
    parse_filter ("foo") = .ok (("foo"), ("exact"))
    ∧ parse_filter ("foo[contains]") = .ok (("foo"), ("contains"))
    ∧ parse_filter ("foo]") = .error .missingOpenBracket
    ∧ parse_filter ("foo[bar") = .error .missingCloseBracket :=
  ⟨rfl, rfl, rfl, rfl⟩

/-- One unfolding step of the hop-by-hop walk at positive fuel. -/
theorem checkAccessGo_succ (ds : Dataset) (sc : FieldSchema → Bool) (fuel : Nat)
    (fieldName : List Char) (pos : SchemaPos) :
    checkAccessGo ds sc (fuel + 1) fieldName pos =
      (if fieldName.isEmpty then
        match pos with
        | .table _ => .error .filterSyntaxNotField
        | .field _ => .ok ()
      else
        match getFieldById pos (String.mk (splitOnceChars fieldName).1) with
        | some f =>
          if sc f then
            match resolveRelated ds f with
            | none =>
              checkAccessGo ds sc fuel (splitOnceChars fieldName).2
                (SchemaPos.field f)
            | some rel =>
              match checkIdents sc rel f.relatedFieldIds with
              | .error e => .error e
              | .ok _ =>
                checkAccessGo ds sc fuel (splitOnceChars fieldName).2
                  (SchemaPos.table rel)
          else .error .permissionDenied
        | none =>
          if endsWithIdChars (splitOnceChars fieldName).1 then
            if (splitOnceChars fieldName).2.isEmpty then
              match getFieldById pos
                  (String.mk (dropIdSuffix (splitOnceChars fieldName).1)) with
              | none => .error .schemaObjectNotFound
              | some f =>
                match resolveRelated ds f with
                | none => .error .schemaObjectNotFound
                | some rel =>
                  match f.relatedFieldIds with
                  | [] => .error .indexError
                  | i0 :: _ => checkAccessGo ds sc fuel i0.data (SchemaPos.table rel)
            else .error .filterSyntaxRelEnd
          else .error .schemaObjectNotFound) := rfl

/-- One unfolding step of the resolution-only walk at positive fuel. -/
theorem walkGo_succ (ds : Dataset) (fuel : Nat) (fieldName : List Char)
    (pos : SchemaPos) :
    walkGo ds (fuel + 1) fieldName pos =
      (if fieldName.isEmpty then
        match pos with
        | .table _ => ([], .onTable)
        | .field _ => ([], .onField)
      else
        match getFieldById pos (String.mk (splitOnceChars fieldName).1) with
        | some f =>
          match resolveRelated ds f with
          | none =>
            (f :: (walkGo ds fuel (splitOnceChars fieldName).2 (SchemaPos.field f)).1,
             (walkGo ds fuel (splitOnceChars fieldName).2 (SchemaPos.field f)).2)
          | some rel =>
            match walkGo.identFields rel f.relatedFieldIds with
            | none => ([f], .resolveFail)
            | some gs =>
              (f :: gs ++
                 (walkGo ds fuel (splitOnceChars fieldName).2 (SchemaPos.table rel)).1,
               (walkGo ds fuel (splitOnceChars fieldName).2 (SchemaPos.table rel)).2)
        | none =>
          if endsWithIdChars (splitOnceChars fieldName).1 then
            if (splitOnceChars fieldName).2.isEmpty then
              match getFieldById pos
                  (String.mk (dropIdSuffix (splitOnceChars fieldName).1)) with
              | none => ([], .resolveFail)
              | some f =>
                match resolveRelated ds f with
                | none => ([], .resolveFail)
                | some rel =>
                  match f.relatedFieldIds with
                  | [] => ([], .resolveFail)
                  | i0 :: _ => walkGo ds fuel i0.data (SchemaPos.table rel)
            else ([], .resolveFail)
          else ([], .resolveFail)) := rfl

/-- The identifier-component loop succeeds exactly when every component
resolves in the related table and every resolved component is accessible. -/
theorem checkIdents_iff (sc : FieldSchema → Bool) (rel : TableSchema) :
    ∀ ids : List String, checkIdents sc rel ids = .ok () ↔
      ∃ gs, walkGo.identFields rel ids = some gs ∧ ∀ g ∈ gs, sc g = true := by
  intro ids
  induction ids with
  | nil =>
    simp [checkIdents, walkGo.identFields]
  | cons i is ih =>
    rw [checkIdents, walkGo.identFields]
    rcases hgi : rel.getFieldBy i with _ | g
    · simp only [hgi]
      simp
    · simp only [hgi]
      by_cases hscg : sc g = true
      · rw [if_pos hscg]
        rcases hident : walkGo.identFields rel is with _ | gs
        · have iha : ¬checkIdents sc rel is = .ok () := by
            intro hok
            rcases ih.mp hok with ⟨gs', hgs', -⟩
            rw [hident] at hgs'
            exact absurd hgs' (by simp)
          simp only [hident]
          constructor
          · intro hok
            exact absurd hok iha
          · rintro ⟨gs', hgs', -⟩
            exact absurd hgs' (by simp)
        · have iha : checkIdents sc rel is = .ok () ↔ ∀ x ∈ gs, sc x = true := by
            rw [ih]
            constructor
            · rintro ⟨gs', hgs', hacc⟩
              rw [hident, Option.some.injEq] at hgs'
              subst hgs'
              exact hacc
            · intro hacc
              exact ⟨gs, hident, hacc⟩
          simp only [hident]
          rw [iha]
          constructor
          · intro hacc
            refine ⟨g :: gs, rfl, ?_⟩
            intro x hx
            rcases List.mem_cons.mp hx with h | h
            · subst h
              exact hscg
            · exact hacc x h
          · rintro ⟨gs', hgs', hacc⟩
            rw [Option.some.injEq] at hgs'
            subst hgs'
            intro x hx
            exact hacc x (List.mem_cons_of_mem _ hx)
      · rw [if_neg hscg]
        constructor
        · intro hcon
          exact absurd hcon (by simp)
        · rintro ⟨gs', hgs', hacc⟩
          rcases hident : walkGo.identFields rel is with _ | gs
          · simp only [hident] at hgs'
            exact absurd hgs' (by simp)
          · simp only [hident, Option.some.injEq] at hgs'
            subst hgs'
            exact absurd (hacc g (by simp)) hscg

/-- The hop-by-hop access check succeeds exactly when the resolution-only walk
ends on a concrete field and every field it collects (the fields the source
access-checks) is accessible; and a fully-resolved walk that ends on a table
scope with every collected field accessible fails with the
does-not-refer-to-a-field FilterSyntaxError. -/
theorem checkAccess_walk (ds : Dataset) (sc : FieldSchema → Bool) :
    ∀ (fuel : Nat) (fieldName : List Char) (pos : SchemaPos),
    (checkAccessGo ds sc fuel fieldName pos = .ok () ↔
      ((walkGo ds fuel fieldName pos).2 = .onField ∧
        ∀ f ∈ (walkGo ds fuel fieldName pos).1, sc f = true))
    ∧ ((walkGo ds fuel fieldName pos).2 = .onTable →
        (∀ f ∈ (walkGo ds fuel fieldName pos).1, sc f = true) →
        checkAccessGo ds sc fuel fieldName pos = .error .filterSyntaxNotField) := by
  intro fuel
  induction fuel with
  | zero =>
    intro fieldName pos
    constructor
    · simp [checkAccessGo, walkGo]
    · simp [walkGo]
  | succ fuel ih =>
    intro fieldName pos
    rw [checkAccessGo_succ, walkGo_succ]
    by_cases hemp : fieldName.isEmpty = true
    · rw [if_pos hemp, if_pos hemp]
      cases pos with
      | table t =>
        constructor
        · simp
        · intro _ _
          rfl
      | field f =>
        constructor
        · simp
        · simp
    · rw [if_neg hemp, if_neg hemp]
      rcases hf : getFieldById pos (String.mk (splitOnceChars fieldName).1) with _ | f
      · simp only [hf]
        by_cases hend : endsWithIdChars (splitOnceChars fieldName).1 = true
        · rw [if_pos hend, if_pos hend]
          by_cases hre : (splitOnceChars fieldName).2.isEmpty = true
          · rw [if_pos hre, if_pos hre]
            rcases hf2 : getFieldById pos
                (String.mk (dropIdSuffix (splitOnceChars fieldName).1)) with _ | f2
            · simp only [hf2]
              exact ⟨by simp, by simp⟩
            · simp only [hf2]
              rcases hr2 : resolveRelated ds f2 with _ | rel
              · simp only [hr2]
                exact ⟨by simp, by simp⟩
              · simp only [hr2]
                rcases hids : f2.relatedFieldIds with _ | ⟨i0, irest⟩
                · simp only [hids]
                  exact ⟨by simp, by simp⟩
                · simp only [hids]
                  exact ih i0.data (SchemaPos.table rel)
          · rw [if_neg hre, if_neg hre]
            exact ⟨by simp, by simp⟩
        · rw [if_neg hend, if_neg hend]
          exact ⟨by simp, by simp⟩
      · simp only [hf]
        rcases hr : resolveRelated ds f with _ | rel
        · simp only [hr]
          have ihx := ih (splitOnceChars fieldName).2 (SchemaPos.field f)
          by_cases hscf : sc f = true
          · rw [if_pos hscf]
            constructor
            · rw [ihx.1]
              simp [List.forall_mem_cons, hscf]
            · intro hend2 hacc
              have hend3 : (walkGo ds fuel (splitOnceChars fieldName).2
                  (SchemaPos.field f)).2 = .onTable := by simpa using hend2
              have hacc3 : ∀ x ∈ (walkGo ds fuel (splitOnceChars fieldName).2
                  (SchemaPos.field f)).1, sc x = true := by
                intro x hx
                exact hacc x (by simp [hx])
              exact ihx.2 hend3 hacc3
          · rw [if_neg hscf]
            constructor
            · constructor
              · intro hok
                exact absurd hok (by simp)
              · rintro ⟨-, hacc⟩
                exact absurd (hacc f (by simp)) hscf
            · intro hend2 hacc
              exact absurd (hacc f (by simp)) hscf
        · simp only [hr]
          rcases hident : walkGo.identFields rel f.relatedFieldIds with _ | gs
          · simp only [hident]
            have hcine : ¬checkIdents sc rel f.relatedFieldIds = .ok () := by
              intro hok
              rcases (checkIdents_iff sc rel _).mp hok with ⟨gs', hgs', -⟩
              rw [hident] at hgs'
              exact absurd hgs' (by simp)
            constructor
            · constructor
              · intro hok
                by_cases hscf : sc f = true
                · rw [if_pos hscf] at hok
                  rcases hci : checkIdents sc rel f.relatedFieldIds with e | u
                  · rw [hci] at hok
                    exact absurd hok (by simp)
                  · cases u
                    exact absurd hci hcine
                · rw [if_neg hscf] at hok
                  exact absurd hok (by simp)
              · rintro ⟨hcon, -⟩
                exact absurd hcon (by simp)
            · intro hend2 _
              simp at hend2
          · simp only [hident]
            have ihx := ih (splitOnceChars fieldName).2 (SchemaPos.table rel)
            by_cases hscf : sc f = true
            · rw [if_pos hscf]
              by_cases hgs : ∀ x ∈ gs, sc x = true
              · have hciok : checkIdents sc rel f.relatedFieldIds = .ok () :=
                  (checkIdents_iff sc rel _).mpr ⟨gs, hident, hgs⟩
                simp only [hciok]
                constructor
                · rw [ihx.1]
                  constructor
                  · rintro ⟨h1, h2⟩
                    refine ⟨by simpa using h1, ?_⟩
                    intro x hx
                    rcases List.mem_cons.mp hx with h | h
                    · subst h
                      exact hscf
                    · rcases List.mem_append.mp h with h | h
                      · exact hgs x h
                      · exact h2 x h
                  · rintro ⟨h1, h2⟩
                    refine ⟨by simpa using h1, ?_⟩
                    intro x hx
                    exact h2 x (by simp [hx])
                · intro hend2 hacc
                  have hend3 : (walkGo ds fuel (splitOnceChars fieldName).2
                      (SchemaPos.table rel)).2 = .onTable := by simpa using hend2
                  have hacc3 : ∀ x ∈ (walkGo ds fuel (splitOnceChars fieldName).2
                      (SchemaPos.table rel)).1, sc x = true := by
                    intro x hx
                    exact hacc x (by simp [hx])
                  exact ihx.2 hend3 hacc3
              · have hsub : ∀ x ∈ gs, x ∈ f :: gs ++
                    (walkGo ds fuel (splitOnceChars fieldName).2
                      (SchemaPos.table rel)).1 := by
                  intro x hx
                  simp [hx]
                rcases hci : checkIdents sc rel f.relatedFieldIds with e | u
                · simp only [hci]
                  constructor
                  · constructor
                    · intro hok
                      exact absurd hok (by simp)
                    · rintro ⟨-, hacc⟩
                      exact absurd (fun x hx => hacc x (hsub x hx)) hgs
                  · intro hend2 hacc
                    exact absurd (fun x hx => hacc x (hsub x hx)) hgs
                · cases u
                  rcases (checkIdents_iff sc rel _).mp hci with ⟨gs', hgs', hacc'⟩
                  rw [hident, Option.some.injEq] at hgs'
                  subst hgs'
                  exact absurd hacc' hgs
            · rw [if_neg hscf]
              constructor
              · constructor
                · intro hok
                  exact absurd hok (by simp)
                · rintro ⟨-, hacc⟩
                  exact absurd (hacc f (by simp)) hscf
              · intro hend2 hacc
                exact absurd (hacc f (by simp)) hscf

/-- Splitting a dot-free string at the first dot returns it whole. -/
theorem splitOnce_no_dot (xs : List Char) (h : ('.') ∉ xs) :
    splitOnceChars xs = (xs, []) := by
  induction xs with
  | nil => rfl
  | cons c cs ih =>
    have hc : ¬(c = '.') := fun hh => h (by simp [hh])
    rw [splitOnceChars, if_neg hc, ih (fun hm => h (List.mem_cons_of_mem _ hm))]

/-- Splitting at the first dot after a dot-free prefix. -/
theorem splitOnce_dot_append (xs ys : List Char) (h : ('.') ∉ xs) :
    splitOnceChars (xs ++ ('.') :: ys) = (xs, ys) := by
  induction xs with
  | nil => simp [splitOnceChars]
  | cons c cs ih =>
    have hc : ¬(c = '.') := fun hh => h (by simp [hh])
    rw [List.cons_append, splitOnceChars, if_neg hc,
      ih (fun hm => h (List.mem_cons_of_mem _ hm))]

/-- Appending the reserved suffix makes `endswith("Id")` true. -/
theorem endsWithId_append (xs : List Char) :
    endsWithIdChars (xs ++ [('I'), ('d')]) = true := by
  rw [endsWithIdChars]
  simp

/-- Stripping the reserved suffix recovers the base name. -/
theorem dropIdSuffix_append (xs : List Char) :
    dropIdSuffix (xs ++ [('I'), ('d')]) = xs := by
  rw [dropIdSuffix]
  simp

/-- Claim C6: for every valid page number N and page size P, the paginator's
page(N) slices the backing row sequence to exactly the half-open index range
[(N-1)*P, N*P+1): the P rows of the page plus exactly one extra sentinel row
beyond the page boundary. -/
theorem C6_page_fetch_range {α : Type} (p : DSOPaginator α) (number : Nat)
    (h : 1 ≤ number) (i : Nat) :
    (p.pageObjectList number)[i]? =
      if (number - 1) * p.perPage + i < number * p.perPage + 1 then
        p.objectList[(number - 1) * p.perPage + i]?
      else none := by
  obtain ⟨k, rfl⟩ : ∃ k, number = k + 1 := ⟨number - 1, by omega⟩
  have h1 : (k + 1 - 1) * p.perPage = k * p.perPage := by simp
  have h2 : k * p.perPage + p.perPage + 1 - k * p.perPage = p.perPage + 1 := by omega
  have hmul : (k + 1) * p.perPage = k * p.perPage + p.perPage := Nat.succ_mul k _
  simp only [DSOPaginator.pageObjectList, pySlice, h1, h2, List.getElem?_take,
    List.getElem?_drop]
  by_cases hc : i < p.perPage + 1
  · rw [if_pos hc, if_pos (by omega)]
  · rw [if_neg hc, if_neg (by omega)]

/-- Witness for C6 at a concrete paginator. -/
theorem C6_page_fetch_range_witness :
    ((⟨[10, 20, 30, 40, 50], 2⟩ : DSOPaginator Nat).pageObjectList 2)[0]? =
      if (2 - 1) * 2 + 0 < 2 * 2 + 1 then
        ([10, 20, 30, 40, 50] : List Nat)[(2 - 1) * 2 + 0]?
      else none :=
  C6_page_fetch_range ⟨[10, 20, 30, 40, 50], 2⟩ 2 (by decide) 0

/-- Claim C9: every request whose method is neither GET nor OPTIONS (in
particular every non-read method) is rejected by validate_request with the
method-not-allowed condition, whatever the query parameters are — so before
any parameter is examined. -/
theorem C9_non_read_rejected (ds : Dataset) (sc : UserScopes) (method : String)
    (queryParams : List (String × List String)) (schema : TableSchema)
    (allowed : List String) (hget : method ≠ ("GET")) (hopt : method ≠ ("OPTIONS")) :
    validate_request ds sc method queryParams schema allowed =
      .error .methodNotAllowed := by
  simp [validate_request, hget, hopt]

/-- Witness for C9: a POST request is rejected regardless of its parameters. -/
theorem C9_non_read_rejected_witness :
    validate_request dsEx scopesNone ("POST") [(("name"), [("x")])] refersT [] =
      .error .methodNotAllowed :=
  C9_non_read_rejected dsEx scopesNone ("POST") [(("name"), [("x")])] refersT []
    (by decide) (by decide)

/-- Claim C7: the serializer factory is memoized by (model identity, depth)
with the nesting level excluded from the cache key: when a first call with
nesting level n₁ succeeds, a second call with the same model and depth but any
nesting level n₂ returns the identical cached serializer class, leaving the
cache untouched. -/
theorem C7_factory_memoized (cache : SFCache) (model : String)
    (depth n₁ n₂ : Nat) (v : SerializerClass) (cache' : SFCache)
    (h : serializer_factory cache model depth n₁ = .ok (v, cache')) :
    serializer_factory cache' model depth n₂ = .ok (v, cache') := by
  unfold serializer_factory at h ⊢
  rcases hl : cacheLookup cache (serializer_cache_key model depth n₁) with _ | w
  · rw [hl] at h
    by_cases hn : MAX_EMBED_NESTING_LEVEL ≤ n₁
    · rw [if_pos hn] at h
      exact absurd h (by simp)
    · rw [if_neg hn] at h
      simp only [Except.ok.injEq, Prod.mk.injEq] at h
      obtain ⟨hv, hc⟩ := h
      subst hv
      subst hc
      have : cacheLookup
          ((serializer_cache_key model depth n₁,
            ({ modelName := model, depth := depth } : SerializerClass)) :: cache)
          (serializer_cache_key model depth n₂) = some { modelName := model, depth := depth } := by
        simp [cacheLookup, serializer_cache_key]
      rw [this]
  · rw [hl] at h
    simp only [Except.ok.injEq, Prod.mk.injEq] at h
    obtain ⟨hv, hc⟩ := h
    subst hv
    subst hc
    have : serializer_cache_key model depth n₂ = serializer_cache_key model depth n₁ := rfl
    rw [this, hl]

/-- Witness for C7: after building (m, depth 1) at nesting level 0, a call at
nesting level 5 returns the identical cached class. -/
theorem C7_factory_memoized_witness :
    serializer_factory [((("m"), 1), ⟨("m"), 1⟩)] ("m") 1 5 =
      .ok (⟨("m"), 1⟩, [((("m"), 1), ⟨("m"), 1⟩)]) :=
  C7_factory_memoized [] ("m") 1 0 5 ⟨("m"), 1⟩ [((("m"), 1), ⟨("m"), 1⟩)] rfl

/-- Counterexample to claim C8 as stated: at nesting level 10 — which does not
exceed the claimed bound 10 — an uncached build already fails with the
recursion-limit condition, because the source guard is
`nesting_level >= MAX_EMBED_NESTING_LEVEL`. -/
theorem C8_counterexample :
    serializer_factory [] ("m") 0 10 = .error .recursionLimit := rfl

/-- Claim C8 (amended): on a cache miss the factory fails with the
recursion-limit condition exactly when the nesting level reaches
MAX_EMBED_NESTING_LEVEL = 10: levels 0..9 construct the class, level 10 and
beyond fail (the claim's boundary of 11 is off by one). -/
theorem C8_recursion_guard (cache : SFCache) (model : String) (depth n : Nat)
    (hmiss : cacheLookup cache (serializer_cache_key model depth n) = none) :
    (n < MAX_EMBED_NESTING_LEVEL →
      serializer_factory cache model depth n =
        .ok ({ modelName := model, depth := depth },
          (serializer_cache_key model depth n,
            ({ modelName := model, depth := depth } : SerializerClass)) :: cache))
    ∧ (MAX_EMBED_NESTING_LEVEL ≤ n →
      serializer_factory cache model depth n = .error .recursionLimit) := by
  constructor
  · intro hn
    unfold serializer_factory
    rw [hmiss, if_neg (by omega)]
  · intro hn
    unfold serializer_factory
    rw [hmiss, if_pos hn]

/-- Witness for C8: with an empty cache, nesting level 9 builds and nesting
level 10 fails. -/
theorem C8_recursion_guard_witness :
    serializer_factory [] ("m") 0 9 =
      .ok (⟨("m"), 0⟩, [((("m"), 0), ⟨("m"), 0⟩)])
    ∧ serializer_factory [] ("m2") 0 10 = .error .recursionLimit :=
  ⟨(C8_recursion_guard [] ("m") 0 9 rfl).1 (by decide),
   (C8_recursion_guard [] ("m2") 0 10 rfl).2 (by decide)⟩

/-- Counterexample to claim C3 as stated: a filter parameter whose full key
`foo]` is contained in the mandatory set of an active profile is nevertheless
rejected with a FilterSyntaxError, because `parse_filter` runs before the
mandatory-set membership test. -/
theorem C3_counterexample :
    ("foo]") ∈ mandatoryFilters scopesBadKey refersT
    ∧ validate_request dsEx scopesBadKey ("GET") [(("foo]"), [("1")])] refersT [] =
        .error .missingOpenBracket :=
  ⟨by decide, rfl⟩

/-- Claim C3 (amended): every filter parameter that parses successfully and
whose full key or parsed field name lies in the union of the active profiles'
mandatory filter sets is accepted by validate_request without any field-access
check — the scope principal's field access function is arbitrary, in
particular it may deny the filtered field; only a key that fails bracket
parsing escapes the bypass. -/
theorem C3_mandatory_bypass (ds : Dataset) (sc : UserScopes)
    (schema : TableSchema) (allowed : List String)
    (queryParams : List (String × List String))
    (h : ∀ kv ∈ queryParams, kv.1 ∈ allowed ∨
      (kv.1 ≠ ("_sort") ∧ kv.1 ≠ ("sorteer") ∧
        ∃ f op, parse_filter kv.1 = .ok (f, op) ∧
          (kv.1 ∈ mandatoryFilters sc schema ∨ f ∈ mandatoryFilters sc schema))) :
    validate_request ds sc ("GET") queryParams schema allowed = .ok () := by
  have hparams : checkParams ds sc schema allowed queryParams = .ok () := by
    induction queryParams with
    | nil => rfl
    | cons kv rest ih =>
      have hkv := h kv (List.mem_cons_self kv rest)
      have hrest : checkParams ds sc schema allowed rest = .ok () :=
        ih (fun kv' hkv' => h kv' (List.mem_cons_of_mem kv hkv'))
      have hone : checkParam ds sc schema allowed kv.1 kv.2 = .ok () := by
        by_cases hall : kv.1 ∈ allowed
        · simp [checkParam, hall]
        · rcases hkv with hall' | ⟨hs1, hs2, f, op, hp, hm⟩
          · exact absurd hall' hall
          · rw [checkParam, if_neg hall, if_neg (by simp [hs1, hs2])]
            simp only [hp]
            rw [if_pos hm]
      obtain ⟨k, vs⟩ := kv
      rw [checkParams, hone, hrest]
  rw [validate_request, if_neg (by decide), if_neg (by simp)]
  by_cases hb : schema.datasetId = ("bbga")
  · rw [if_pos hb]
  · rw [if_neg hb]
    exact hparams

/-- Witness for C3: the filter `foo` is denied by the scopes' field access but
accepted because an active profile lists it as mandatory. -/
theorem C3_mandatory_bypass_witness :
    validate_request dsEx scopesFoo ("GET") [(("foo"), [("1")])] refersT [] =
      .ok () :=
  C3_mandatory_bypass dsEx scopesFoo refersT [] [(("foo"), [("1")])]
    (by
      intro kv hkv
      rw [List.mem_singleton] at hkv
      subst hkv
      exact Or.inr ⟨by decide, by decide, ("foo"), ("exact"), rfl,
        Or.inl (by decide)⟩)

/-- A single watch callback that does not trigger the sentinel pull: either the
produced count differs from the page size, or the iterator is already
exhausted. -/
theorem watchGo_basic {α : Type} (fuel : Nat) (st : PageState α) (b : Bool)
    (h404 : ¬(b = true ∧ 1 < st.number))
    (hstop : st.numberReturned ≠ st.perPage ∨ st.isIterated = true) :
    watchGo (fuel + 1) st b =
      .ok ({ st with
             length := min st.perPage st.numberReturned
             hasNext := some (decide (st.perPage < st.numberReturned)) }) := by
  simp only [watchGo]
  rw [if_neg h404]
  rcases hstop with hns | hit
  · rw [if_neg hns]
  · by_cases hns : st.numberReturned = st.perPage
    · rw [if_pos hns]
      have : ({ st with
             length := min st.perPage st.numberReturned
             hasNext := some (decide (st.perPage < st.numberReturned)) } :
          PageState α).isIterated = true := hit
      rw [if_pos this]
    · rw [if_neg hns]

/-- A consumer pull on an exhausted iterator only signals stop-iteration. -/
theorem consumerNext_iterated {α : Type} (st : PageState α)
    (h : st.isIterated = true) :
    consumerNext st = .ok (none, st) := by
  rw [consumerNext, if_pos h]

/-- A consumer pull strictly inside the page body: the produced count stays
below the page size, so no sentinel pull is triggered. -/
theorem consumerNext_cons_small {α : Type} (x : α) (rem : List α)
    (j n P L : Nat) (hnx : Option Bool) (hlt : j + 1 < P) :
    consumerNext (⟨x :: rem, j, false, n, P, L, hnx⟩ : PageState α) =
      .ok (some x, ⟨rem, j + 1, false, n, P, min P (j + 1), some false⟩) := by
  rw [consumerNext]
  simp only [Bool.false_eq_true, if_false]
  rw [watchGo_basic 2 _ false (by simp) (Or.inl (by simpa using by omega))]
  have hd : decide (P < j + 1) = false := by simp; omega
  simp [hd]

/-- The consumer pull that yields the last page row when the backing slice
holds exactly the page size: the sentinel pull hits exhaustion, so the page is
already fully iterated when this row is yielded. -/
theorem consumerNext_cons_last_nil {α : Type} (x : α) (j n P L : Nat)
    (hnx : Option Bool) (hj : j + 1 = P) (hP : 1 ≤ P) :
    consumerNext (⟨[x], j, false, n, P, L, hnx⟩ : PageState α) =
      .ok (some x, ⟨[], P, true, n, P, P, some false⟩) := by
  rw [consumerNext]
  simp only [Bool.false_eq_true, if_false]
  subst hj
  simp only [watchGo]
  simp [Nat.lt_irrefl]

/-- The consumer pull that yields the last page row when one sentinel row
remains behind it: the sentinel row is pulled and discarded internally,
`has_next` becomes true and the iterator is not yet exhausted. -/
theorem consumerNext_cons_last_cons {α : Type} (x y : α) (j n P L : Nat)
    (hnx : Option Bool) (hj : j + 1 = P) :
    consumerNext (⟨[x, y], j, false, n, P, L, hnx⟩ : PageState α) =
      .ok (some x, ⟨[], P + 1, false, n, P, P, some true⟩) := by
  rw [consumerNext]
  simp only [Bool.false_eq_true, if_false]
  subst hj
  simp only [watchGo]
  simp [Nat.lt_irrefl]

/-- The exhausting consumer pull: the finalize callback runs with the
empty-flag, setting the realized length and `has_next`. -/
theorem consumerNext_nil {α : Type} (j n P L : Nat) (hnx : Option Bool)
    (hg : j = 0 → n ≤ 1) :
    consumerNext (⟨[], j, false, n, P, L, hnx⟩ : PageState α) =
      .ok (none, ⟨[], j, true, n, P, min P j, some (decide (P < j))⟩) := by
  rw [consumerNext]
  simp only [Bool.false_eq_true, if_false]
  rw [watchGo_basic 2 _ _ (by
        by_cases hj : j = 0
        · have := hg hj
          simp [hj]
          omega
        · simp [hj])
      (by
        by_cases hjP : j = P
        · exact Or.inr rfl
        · exact Or.inl hjP)]

/-- The exhausting consumer pull on a page beyond page 1 that never produced a
row: navigation beyond the last page, surfaced as 404. -/
theorem consumerNext_nil_404 {α : Type} (n P L : Nat) (hnx : Option Bool)
    (hn : 1 < n) :
    consumerNext (⟨[], 0, false, n, P, L, hnx⟩ : PageState α) =
      .error .http404 := by
  rw [consumerNext]
  simp only [Bool.false_eq_true, if_false]
  simp only [watchGo]
  simp [hn]

/-- `k` consumer pulls strictly inside the page body yield exactly the first
`k` backing rows and leave the page not yet iterated. -/
theorem pullK_run {α : Type} : ∀ (k : Nat) (rem : List α) (j n P L : Nat)
    (hnx : Option Bool), k ≤ rem.length → j + k < P →
    pullK k (⟨rem, j, false, n, P, L, hnx⟩ : PageState α) =
      .ok (rem.take k,
        ⟨rem.drop k, j + k, false, n, P,
         (if k = 0 then L else min P (j + k)),
         (if k = 0 then hnx else some false)⟩) := by
  intro k
  induction k with
  | zero => intro rem j n P L hnx _ _; simp [pullK]
  | succ k ih =>
    intro rem j n P L hnx hk hjk
    match rem with
    | [] => simp at hk
    | x :: rem' =>
      have hk' : k ≤ rem'.length := by simpa using hk
      rw [pullK]
      simp only [consumerNext_cons_small x rem' j n P L hnx (by omega)]
      simp only [ih rem' (j + 1) n P (min P (j + 1)) (some false) hk' (by omega)]
      have e1 : (if k = 0 then min P (j + 1) else min P (j + 1 + k)) =
          min P (j + (k + 1)) := by
        rcases k with _ | k
        · simp
        · simp only [Nat.succ_ne_zero, if_false]
          congr 1
          omega
      have e2 : (if k = 0 then (some false : Option Bool) else some false) =
          some false := ite_self _
      have e3 : j + 1 + k = j + (k + 1) := by omega
      simp [e1, e2, e3]
      intro hk0
      subst hk0
      simp

/-- Fully draining a page state in mid-iteration shape: the consumer receives
the backing rows up to the page boundary, the sentinel row (when present) is
pulled and discarded internally, and afterwards the page is iterated with the
realized length and `has_next` determined by the produced count. -/
theorem drainGo_run {α : Type} : ∀ (rem : List α) (j n P : Nat)
    (L : Nat) (hnx : Option Bool) (fuel : Nat),
    rem.length < fuel → j + rem.length ≤ P + 1 → 1 ≤ P →
    (rem = [] → (1 ≤ j ∨ n ≤ 1)) → (rem = [] ∨ j < P) →
    drainGo fuel (⟨rem, j, false, n, P, L, hnx⟩ : PageState α) =
      .ok (rem.take (P - j),
        ⟨[], j + rem.length, true, n, P, min P (j + rem.length),
         some (decide (P < j + rem.length))⟩) := by
  intro rem
  induction rem with
  | nil =>
    intro j n P L hnx fuel hfuel hlen hP hguard hjP
    obtain ⟨f, rfl⟩ : ∃ f, fuel = f + 1 := ⟨fuel - 1, by omega⟩
    rw [drainGo]
    simp only [consumerNext_nil j n P L hnx
      (fun hj0 => by rcases hguard rfl with h1 | h1 <;> omega)]
    simp
  | cons x rem' ih =>
    intro j n P L hnx fuel hfuel hlen hP hguard hjP
    have hjP' : j < P := by
      rcases hjP with h | h
      · exact absurd h (by simp)
      · exact h
    obtain ⟨f, rfl⟩ : ∃ f, fuel = f + 1 := ⟨fuel - 1, by omega⟩
    have hflen : rem'.length < f := by simp at hfuel; omega
    have hlen' : j + 1 + rem'.length ≤ P + 1 := by simp at hlen; omega
    by_cases hsmall : j + 1 < P
    · rw [drainGo]
      simp only [consumerNext_cons_small x rem' j n P L hnx hsmall]
      simp only [ih (j + 1) n P (min P (j + 1)) (some false) f hflen hlen' hP
        (fun _ => Or.inl (by omega)) (Or.inr hsmall)]
      have e1 : j + 1 + rem'.length = j + (x :: rem').length := by
        simp
        omega
      have e2 : x :: rem'.take (P - (j + 1)) = (x :: rem').take (P - j) := by
        have h3 : P - j = (P - (j + 1)) + 1 := by omega
        rw [h3, List.take_succ_cons]
      rw [e1]
      simp only [e2]
    · have hj1 : j + 1 = P := by omega
      rcases rem' with _ | ⟨y, rem''⟩
      · rw [drainGo]
        simp only [consumerNext_cons_last_nil x j n P L hnx hj1 hP]
        obtain ⟨f', rfl⟩ : ∃ f'', f = f'' + 1 := ⟨f - 1, by omega⟩
        rw [drainGo]
        simp only [consumerNext_iterated
          (⟨[], P, true, n, P, P, some false⟩ : PageState α) rfl]
        have e1 : P - j = 1 := by omega
        have e2 : j + ([x] : List α).length = P := by simp; omega
        rw [e2]
        simp [e1, Nat.min_self]
      · have hrem'' : rem'' = [] := by
          have hl2 : rem''.length = 0 := by simp at hlen; omega
          exact List.length_eq_zero.mp hl2
        subst hrem''
        rw [drainGo]
        simp only [consumerNext_cons_last_cons x y j n P L hnx hj1]
        obtain ⟨f', rfl⟩ : ∃ f'', f = f'' + 1 := ⟨f - 1, by simp at hflen; omega⟩
        rw [drainGo]
        simp only [consumerNext_nil (P + 1) n P P (some true) (by omega)]
        have e1 : P - j = 1 := by omega
        have e2 : j + ([x, y] : List α).length = P + 1 := by simp; omega
        have e3 : min P (P + 1) = P := Nat.min_eq_left (by omega)
        have e4 : decide (P < P + 1) = true := by simp
        rw [e2]
        simp [e1, e3, e4]

/-- Every successful watch callback leaves the page length equal to
min(page size, produced count), never decreases the produced count and keeps
the page size. -/
theorem watchGo_invariant {α : Type} : ∀ (fuel : Nat) (st : PageState α)
    (b : Bool) (st' : PageState α), watchGo fuel st b = .ok st' →
    st'.length = min st'.perPage st'.numberReturned ∧
    st.numberReturned ≤ st'.numberReturned ∧ st'.perPage = st.perPage ∧
    st'.numberReturned ≤ st.numberReturned + st.remaining.length := by
  intro fuel
  induction fuel with
  | zero => intro st b st' h; simp [watchGo] at h
  | succ fuel ih =>
    intro st b st' h
    simp only [watchGo] at h
    by_cases h404 : b = true ∧ 1 < st.number
    · rw [if_pos h404] at h
      simp at h
    · rw [if_neg h404] at h
      by_cases hsent : st.numberReturned = st.perPage
      · rw [if_pos hsent] at h
        by_cases hit : st.isIterated = true
        · rw [if_pos hit] at h
          rw [Except.ok.injEq] at h
          subst h
          exact ⟨rfl, Nat.le_refl _, rfl, Nat.le_add_right _ _⟩
        · rw [if_neg hit] at h
          rcases hrem : st.remaining with _ | ⟨x, rest⟩
          · rw [hrem] at h
            have h3 := ih _ _ _ h
            refine ⟨h3.1, h3.2.1, h3.2.2.1, ?_⟩
            have h4 := h3.2.2.2
            simp at h4
            simpa using h4
          · rw [hrem] at h
            have h3 := ih _ _ _ h
            refine ⟨h3.1, Nat.le_trans (Nat.le_succ _) h3.2.1, h3.2.2.1, ?_⟩
            have h4 := h3.2.2.2
            simp at h4
            simp only [List.length_cons]
            omega
      · rw [if_neg hsent] at h
        rw [Except.ok.injEq] at h
        subst h
        exact ⟨rfl, Nat.le_refl _, rfl, Nat.le_add_right _ _⟩

/-- Claim C10: `len` is a plain field read, so it is defined at every moment
of the page's lifetime; it is 0 for a freshly constructed page, always equals
min(page size, items pulled so far from the backing iterator), and grows
monotonically as the page is drained. -/
theorem C10_len_total {α : Type} :
    (∀ (xs : List α) (n P : Nat) (st₀ : PageState α),
      DSOPage.init xs n P = .ok st₀ →
      DSOPage.len st₀ = min st₀.perPage st₀.numberReturned ∧
      st₀.numberReturned = 0 ∧ DSOPage.len st₀ = 0)
    ∧ (∀ (st st' : PageState α) (o : Option α),
      DSOPage.len st = min st.perPage st.numberReturned →
      consumerNext st = .ok (o, st') →
      DSOPage.len st' = min st'.perPage st'.numberReturned ∧
      st.numberReturned ≤ st'.numberReturned ∧ st'.perPage = st.perPage ∧
      DSOPage.len st ≤ DSOPage.len st') := by
  constructor
  · intro xs n P st₀ h
    simp only [DSOPage.init] at h
    rcases xs with _ | ⟨x, rest⟩
    · simp only [List.isEmpty_nil, if_true] at h
      have h3 := watchGo_invariant 3 _ _ _ h
      have hlow := h3.2.1
      have hhigh := h3.2.2.2
      simp only [List.length_nil] at hhigh
      have hnr : st₀.numberReturned = 0 := by omega
      exact ⟨by rw [DSOPage.len, h3.1], hnr,
        by rw [DSOPage.len, h3.1, hnr]; simp⟩
    · simp only [List.isEmpty_cons, Bool.false_eq_true, if_false] at h
      rw [Except.ok.injEq] at h
      subst h
      exact ⟨by simp [DSOPage.len], rfl, rfl⟩
  · intro st st' o hlen h
    obtain ⟨rem, j, it, num, P, L, hx⟩ := st
    simp only [DSOPage.len] at hlen ⊢
    cases it with
    | true =>
      rw [consumerNext, if_pos rfl] at h
      rw [Except.ok.injEq, Prod.mk.injEq] at h
      obtain ⟨-, h2⟩ := h
      subst h2
      exact ⟨hlen, Nat.le_refl _, rfl, Nat.le_refl _⟩
    | false =>
      rcases rem with _ | ⟨x, rest⟩
      · have h' : (match watchGo 3 (⟨[], j, true, num, P, L, hx⟩ : PageState α)
              (decide (j = 0)) with
            | Except.error e => (Except.error e : Except PageError (Option α × PageState α))
            | Except.ok s => Except.ok (none, s)) = Except.ok (o, st') := h
        rcases hw : watchGo 3 (⟨[], j, true, num, P, L, hx⟩ : PageState α)
            (decide (j = 0)) with e | stw
        · rw [hw] at h'
          simp at h'
        · rw [hw] at h'
          simp only [Except.ok.injEq, Prod.mk.injEq] at h'
          obtain ⟨-, h2⟩ := h'
          subst h2
          have h3 := watchGo_invariant 3 _ _ _ hw
          simp only at h3
          refine ⟨h3.1, h3.2.1, h3.2.2.1, ?_⟩
          rw [hlen, h3.1, h3.2.2.1]
          exact min_le_min (Nat.le_refl _) h3.2.1
      · have h' : (match watchGo 3 (⟨rest, j + 1, false, num, P, L, hx⟩ : PageState α)
              false with
            | Except.error e => (Except.error e : Except PageError (Option α × PageState α))
            | Except.ok s => Except.ok (some x, s)) = Except.ok (o, st') := h
        rcases hw : watchGo 3 (⟨rest, j + 1, false, num, P, L, hx⟩ : PageState α)
            false with e | stw
        · rw [hw] at h'
          simp at h'
        · rw [hw] at h'
          simp only [Except.ok.injEq, Prod.mk.injEq] at h'
          obtain ⟨-, h2⟩ := h'
          subst h2
          have h3 := watchGo_invariant 3 _ _ _ hw
          simp only at h3
          refine ⟨h3.1, Nat.le_trans (Nat.le_succ _) h3.2.1, h3.2.2.1, ?_⟩
          rw [hlen, h3.1, h3.2.2.1]
          exact min_le_min (Nat.le_refl _)
            (Nat.le_trans (Nat.le_succ _) h3.2.1)

/-- Witness for C10 at a concrete page over [5] with page size 2. -/
theorem C10_len_total_witness :
    (DSOPage.len (⟨[5], 0, false, 1, 2, 0, none⟩ : PageState Nat) =
        min 2 0 ∧ (0 : Nat) = 0 ∧
        DSOPage.len (⟨[5], 0, false, 1, 2, 0, none⟩ : PageState Nat) = 0)
    ∧ (DSOPage.len (⟨[], 1, false, 1, 2, 1, some false⟩ : PageState Nat) =
        min 2 1 ∧ (0 : Nat) ≤ 1 ∧ (2 : Nat) = 2 ∧
        DSOPage.len (⟨[5], 0, false, 1, 2, 0, none⟩ : PageState Nat) ≤
          DSOPage.len (⟨[], 1, false, 1, 2, 1, some false⟩ : PageState Nat)) := by
  constructor
  · exact (C10_len_total.1 [5] 1 2 ⟨[5], 0, false, 1, 2, 0, none⟩ rfl)
  · exact (C10_len_total.2 (⟨[5], 0, false, 1, 2, 0, none⟩ : PageState Nat)
      (⟨[], 1, false, 1, 2, 1, some false⟩ : PageState Nat) (some 5) rfl rfl)

/-- Claim C5: a page N > 1 over an empty backing slice is a page-out-of-range
failure (404) already at construction; an empty page 1 is accepted and, once
drained, has realized length 0 and has_next = false. -/
theorem C5_empty_page_policy {α : Type} (P n : Nat) (hP : 1 ≤ P) (hn : 1 < n) :
    DSOPage.init ([] : List α) n P = .error .http404
    ∧ DSOPage.init ([] : List α) 1 P =
        .ok (⟨[], 0, false, 1, P, 0, some false⟩ : PageState α)
    ∧ DSOPage.drain (⟨[], 0, false, 1, P, 0, some false⟩ : PageState α) =
        .ok ([], ⟨[], 0, true, 1, P, 0, some false⟩)
    ∧ DSOPage.len (⟨[], 0, true, 1, P, 0, some false⟩ : PageState α) = 0
    ∧ DSOPage.has_next (⟨[], 0, true, 1, P, 0, some false⟩ : PageState α) =
        some false := by
  refine ⟨?_, ?_, ?_, rfl, rfl⟩
  · simp only [DSOPage.init, List.isEmpty_nil, if_true]
    simp [watchGo, hn]
  · simp only [DSOPage.init, List.isEmpty_nil, if_true]
    rw [watchGo_basic 2 _ true (by simp) (Or.inl (show (0 : Nat) ≠ P by omega))]
    simp
  · have h := drainGo_run ([] : List α) 0 1 P 0 (some false) 1 (by simp)
      (by simp) hP (fun _ => Or.inr (by omega)) (Or.inl rfl)
    rw [DSOPage.drain]
    simpa using h

/-- Witness for C5 with page size 2: page 2 of an empty slice is 404, page 1
drains to the empty page with has_next = false. -/
theorem C5_empty_page_policy_witness :
    DSOPage.init ([] : List Nat) 2 2 = .error .http404
    ∧ DSOPage.init ([] : List Nat) 1 2 =
        .ok (⟨[], 0, false, 1, 2, 0, some false⟩ : PageState Nat)
    ∧ DSOPage.drain (⟨[], 0, false, 1, 2, 0, some false⟩ : PageState Nat) =
        .ok ([], ⟨[], 0, true, 1, 2, 0, some false⟩)
    ∧ DSOPage.len (⟨[], 0, true, 1, 2, 0, some false⟩ : PageState Nat) = 0
    ∧ DSOPage.has_next (⟨[], 0, true, 1, 2, 0, some false⟩ : PageState Nat) =
        some false :=
  C5_empty_page_policy 2 2 (by decide) (by decide)

/-- Claim C4: for a page over a backing slice xs with page size P (the
paginator hands the page at most P+1 rows), has_next is the unknown marker
until the backing sequence has been drained; once drained, the produced count
is min(xs.length, P+1), has_next = (produced count > P), the realized length
is min(P, produced count), and when the produced count reaches P+1 the extra
sentinel row was pulled and discarded internally — the consumer receives
exactly xs.take P. -/
theorem C4_page_drain {α : Type} (xs : List α) (n P : Nat) (hP : 1 ≤ P)
    (hxs : xs.length ≤ P + 1) (hne : xs ≠ [] ∨ n ≤ 1) :
    ∃ st₀ : PageState α,
      DSOPage.init xs n P = .ok st₀ ∧
      st₀.remaining = xs ∧ st₀.numberReturned = 0 ∧ st₀.isIterated = false ∧
      DSOPage.len st₀ = 0 ∧ DSOPage.has_next st₀ = none ∧
      (∀ k, k < min xs.length P →
        ∃ stK : PageState α, pullK k st₀ = .ok (xs.take k, stK) ∧
          stK.isIterated = false ∧ DSOPage.has_next stK = none) ∧
      DSOPage.drain st₀ =
        .ok (xs.take P,
          ⟨[], xs.length, true, n, P, min P xs.length,
           some (decide (P < xs.length))⟩) ∧
      xs.length = min xs.length (P + 1) := by
  rcases xs with _ | ⟨x, rest⟩
  · have hn1 : n ≤ 1 := by
      rcases hne with h | h
      · exact absurd rfl h
      · exact h
    refine ⟨⟨[], 0, false, n, P, 0, some false⟩, ?_, rfl, rfl, rfl, rfl, rfl,
      ?_, ?_, by simp⟩
    · simp only [DSOPage.init, List.isEmpty_nil, if_true]
      rw [watchGo_basic 2 _ true (by simp; omega)
        (Or.inl (show (0 : Nat) ≠ P by omega))]
      simp
    · intro k hk
      simp at hk
    · have h := drainGo_run ([] : List α) 0 n P 0 (some false) 1 (by simp)
        (by simp) hP (fun _ => Or.inr hn1) (Or.inl rfl)
      rw [DSOPage.drain]
      simpa using h
  · refine ⟨⟨x :: rest, 0, false, n, P, 0, none⟩, ?_, rfl, rfl, rfl, rfl, rfl,
      ?_, ?_, (Nat.min_eq_left hxs).symm⟩
    · simp [DSOPage.init]
    · intro k hk
      have hk1 : k ≤ (x :: rest).length :=
        Nat.le_of_lt (Nat.lt_of_lt_of_le hk (Nat.min_le_left _ _))
      have hk2 : 0 + k < P := by
        have := Nat.lt_of_lt_of_le hk (Nat.min_le_right _ _)
        omega
      refine ⟨_, pullK_run k (x :: rest) 0 n P 0 none hk1 hk2, rfl, rfl⟩
    · have h := drainGo_run (x :: rest) 0 n P 0 none ((x :: rest).length + 1)
        (by omega) (by omega) hP (fun hcon => absurd hcon (by simp))
        (Or.inr (by omega))
      rw [DSOPage.drain]
      simpa using h

/-- Witness for C4: a page over the 3-row slice [1, 2, 3] with page size 2
(two page rows plus the sentinel). -/
theorem C4_page_drain_witness :
    ∃ st₀ : PageState Nat,
      DSOPage.init [1, 2, 3] 1 2 = .ok st₀ ∧
      st₀.remaining = [1, 2, 3] ∧ st₀.numberReturned = 0 ∧
      st₀.isIterated = false ∧
      DSOPage.len st₀ = 0 ∧ DSOPage.has_next st₀ = none ∧
      (∀ k, k < min ([1, 2, 3] : List Nat).length 2 →
        ∃ stK : PageState Nat,
          pullK k st₀ = .ok (([1, 2, 3] : List Nat).take k, stK) ∧
          stK.isIterated = false ∧ DSOPage.has_next stK = none) ∧
      DSOPage.drain st₀ =
        .ok (([1, 2, 3] : List Nat).take 2,
          ⟨[], ([1, 2, 3] : List Nat).length, true, 1, 2,
           min 2 ([1, 2, 3] : List Nat).length,
           some (decide (2 < ([1, 2, 3] : List Nat).length))⟩) ∧
      ([1, 2, 3] : List Nat).length = min ([1, 2, 3] : List Nat).length (2 + 1) :=
  C4_page_drain [1, 2, 3] 1 2 (by decide) (by decide) (Or.inl (by decide))

/-- Counterexample to claim C2 as stated: with scopes that may access the
related table's identifier but not the relation field itself, the shorthand
`baseId` validates while `base.id` is denied — the two forms do not authorize
identically, because the shorthand branch skips the access check on the
relation field (the `continue` jumps over it). -/
theorem C2_counterexample :
    check_field_access dsEx scopesNoRel ("baseId") (SchemaPos.table refersT) =
      .ok ()
    ∧ check_field_access dsEx scopesNoRel ("base.id") (SchemaPos.table refersT) =
      .error .permissionDenied
    ∧ scopesNoRel baseF = false ∧ scopesNoRel identF = true :=
  ⟨rfl, rfl, rfl, rfl⟩

/-- Claim C2 (amended): for a relation field `b` whose target table has the
single-component identifier `i0` (resolving to a plain field), the shorthand
`bId` validates exactly when the identifier field is accessible, while the
dotted form `b.i0` additionally requires access to the relation field itself —
so every scope set accepted by the dotted form is accepted by the shorthand,
but not conversely.  A dotted continuation after the shorthand is rejected
with the FilterSyntaxError relation-key-should-appear-at-the-end. -/
theorem C2_shorthand (ds : Dataset) (sc : FieldSchema → Bool) (t rel : TableSchema)
    (b i0 : String) (fb g : FieldSchema)
    (hdb : ('.') ∉ b.data) (hdi : ('.') ∉ i0.data) (hi0 : i0.data ≠ [])
    (hId : getFieldById (SchemaPos.table t) (b ++ ("Id")) = none)
    (hb : getFieldById (SchemaPos.table t) b = some fb)
    (hrel : resolveRelated ds fb = some rel)
    (hids : fb.relatedFieldIds = [i0])
    (hg : rel.getFieldBy i0 = some g)
    (hgrel : resolveRelated ds g = none) :
    (check_field_access ds sc (b ++ ("Id")) (SchemaPos.table t) = .ok () ↔
      sc g = true)
    ∧ (check_field_access ds sc (b ++ (".") ++ i0) (SchemaPos.table t) = .ok () ↔
      (sc fb = true ∧ sc g = true))
    ∧ (∀ rest : String, rest.data ≠ [] →
      check_field_access ds sc (b ++ ("Id.") ++ rest) (SchemaPos.table t) =
        .error .filterSyntaxRelEnd) := by
  have hmki : String.mk i0.data = i0 := rfl
  have hmkb : String.mk b.data = b := rfl
  have hgid : getFieldById (SchemaPos.table rel) i0 = some g := by
    simp [getFieldById, hg]
  have hgb : getFieldById (SchemaPos.table t) b = some fb := hb
  have walk_i0 : ∀ f : Nat,
      checkAccessGo ds sc (f + 2) i0.data (SchemaPos.table rel) =
        (if sc g = true then .ok () else .error .permissionDenied) := by
    intro f
    rw [show f + 2 = f + 1 + 1 by omega, checkAccessGo_succ]
    rw [if_neg (by simp [hi0]), splitOnce_no_dot i0.data hdi]
    simp only [hmki, hgid, hgrel]
    by_cases hscg : sc g = true
    · rw [if_pos hscg, if_pos hscg, checkAccessGo_succ]
      simp
    · rw [if_neg hscg, if_neg hscg]
  refine ⟨?_, ?_, ?_⟩
  · simp only [check_field_access, String.data_append,
      show ("Id").data = [('I'), ('d')] from rfl]
    rw [show (b ++ ("Id")).length + 2 = (b.data.length + 3) + 1 by
        rw [String.length_append]
        have h1 : b.length = b.data.length := rfl
        have h2 : ("Id").length = 2 := rfl
        omega]
    rw [checkAccessGo_succ]
    rw [if_neg (by simp), splitOnce_no_dot (b.data ++ [('I'), ('d')]) (by simp [hdb])]
    simp only [show String.mk (b.data ++ [('I'), ('d')]) = b ++ ("Id") from rfl, hId,
      endsWithId_append, if_true, List.isEmpty_nil, dropIdSuffix_append, hmkb,
      hgb, hrel, hids]
    rw [show b.data.length + 3 = (b.data.length + 1) + 2 by omega, walk_i0]
    by_cases hscg : sc g = true
    · simp [hscg]
    · simp [hscg]
  · simp only [check_field_access, String.data_append,
      show (".").data = [('.')] from rfl]
    rw [show (b ++ (".") ++ i0).length + 2 =
        (b.data.length + i0.data.length + 2) + 1 by
        rw [String.length_append, String.length_append]
        have h1 : b.length = b.data.length := rfl
        have h2 : (".").length = 1 := rfl
        have h3 : i0.length = i0.data.length := rfl
        omega]
    rw [checkAccessGo_succ]
    rw [if_neg (by simp), show b.data ++ [('.')] ++ i0.data =
        b.data ++ ('.') :: i0.data by simp]
    rw [splitOnce_dot_append b.data i0.data hdb]
    simp only [hmkb, hgb, hrel, hids]
    by_cases hscfb : sc fb = true
    · rw [if_pos hscfb]
      simp only [checkIdents, hg]
      by_cases hscg : sc g = true
      · rw [if_pos hscg]
        simp only [checkIdents]
        rw [show b.data.length + i0.data.length + 2 =
            (b.data.length + i0.data.length) + 2 by omega, walk_i0]
        simp [hscfb, hscg]
      · rw [if_neg hscg]
        simp [hscg]
    · rw [if_neg hscfb]
      simp [hscfb]
  · intro rest hrest
    simp only [check_field_access, String.data_append,
      show ("Id.").data = [('I'), ('d'), ('.')] from rfl]
    rw [show (b ++ ("Id.") ++ rest).length + 2 =
        (b.data.length + rest.data.length + 4) + 1 by
        rw [String.length_append, String.length_append]
        have h1 : b.length = b.data.length := rfl
        have h2 : ("Id.").length = 3 := rfl
        have h3 : rest.length = rest.data.length := rfl
        omega]
    rw [checkAccessGo_succ]
    rw [if_neg (by simp), show b.data ++ [('I'), ('d'), ('.')] ++ rest.data =
        (b.data ++ [('I'), ('d')]) ++ ('.') :: rest.data by simp]
    rw [splitOnce_dot_append (b.data ++ [('I'), ('d')]) rest.data (by simp [hdb])]
    simp only [show String.mk (b.data ++ [('I'), ('d')]) = b ++ ("Id") from rfl, hId,
      endsWithId_append, if_true]
    rw [if_neg (by simp [hrest])]

/-- Counterexample to claim C1 as stated: the shorthand path `baseId`
validates although a field resolved on its hop-by-hop walk — the relation
field `base`, resolved when the reserved suffix is stripped — is not
accessible to the scopes: the `continue` in the shorthand branch skips the
access check on the relation field, so success is not equivalent to all
resolved fields being accessible. -/
theorem C1_counterexample :
    check_field_access dsEx scopesNoRel ("baseId") (SchemaPos.table refersT) =
      .ok ()
    ∧ (claimWalk dsEx ("baseId") (SchemaPos.table refersT)).2 = .onField
    ∧ (claimWalk dsEx ("baseId") (SchemaPos.table refersT)).1 = [baseF, identF]
    ∧ baseF ∈ (claimWalk dsEx ("baseId") (SchemaPos.table refersT)).1
    ∧ scopesNoRel baseF = false :=
  ⟨rfl, rfl, rfl, List.mem_cons_self _ _, rfl⟩

/-- Claim C1 (amended): validation succeeds iff the hop-by-hop walk ends on a
concrete field and every field the walk access-checks is accessible, where the
checked fields are every resolved path segment plus every identifier component
at a dotted relation hop — but at an `-Id` shorthand hop the relation field
itself is resolved without being access-checked (the walk continues from the
target's first identifier component only).  An empty path is a
FilterSyntaxError, and a fully accessible walk that ends on a relation (table
scope) rather than a concrete field is a FilterSyntaxError. -/
theorem C1_walk_characterization (ds : Dataset) (sc : FieldSchema → Bool)
    (path : String) (t : TableSchema) :
    (check_field_access ds sc path (SchemaPos.table t) = .ok () ↔
      ((walkFields ds path (SchemaPos.table t)).2 = .onField ∧
        ∀ f ∈ (walkFields ds path (SchemaPos.table t)).1, sc f = true))
    ∧ (path = ("") →
      check_field_access ds sc path (SchemaPos.table t) =
        .error .filterSyntaxNotField)
    ∧ ((walkFields ds path (SchemaPos.table t)).2 = .onTable →
      (∀ f ∈ (walkFields ds path (SchemaPos.table t)).1, sc f = true) →
      check_field_access ds sc path (SchemaPos.table t) =
        .error .filterSyntaxNotField) := by
  refine ⟨(checkAccess_walk ds sc _ _ _).1, ?_, (checkAccess_walk ds sc _ _ _).2⟩
  intro hp
  subst hp
  rfl

/-- Witness for C1 at the relation-auth fixture and the plain field `name`. -/
theorem C1_walk_characterization_witness :
    (check_field_access dsEx scopesNoRel ("name") (SchemaPos.table refersT) =
        .ok () ↔
      ((walkFields dsEx ("name") (SchemaPos.table refersT)).2 = .onField ∧
        ∀ f ∈ (walkFields dsEx ("name") (SchemaPos.table refersT)).1,
          scopesNoRel f = true))
    ∧ ((("name") : String) = ("") →
      check_field_access dsEx scopesNoRel ("name") (SchemaPos.table refersT) =
        .error .filterSyntaxNotField)
    ∧ ((walkFields dsEx ("name") (SchemaPos.table refersT)).2 = .onTable →
      (∀ f ∈ (walkFields dsEx ("name") (SchemaPos.table refersT)).1,
        scopesNoRel f = true) →
      check_field_access dsEx scopesNoRel ("name") (SchemaPos.table refersT) =
        .error .filterSyntaxNotField) :=
  C1_walk_characterization dsEx scopesNoRel ("name") refersT

/-- Witness for C2 at the concrete relation-auth fixture: the shorthand
authorizes exactly via the identifier field, the dotted form additionally via
the relation field. -/
theorem C2_shorthand_witness :
    (check_field_access dsEx scopesNoRel (("base") ++ ("Id"))
        (SchemaPos.table refersT) = .ok () ↔ scopesNoRel identF = true)
    ∧ (check_field_access dsEx scopesNoRel (("base") ++ (".") ++ ("id"))
        (SchemaPos.table refersT) = .ok () ↔
      (scopesNoRel baseF = true ∧ scopesNoRel identF = true))
    ∧ (∀ rest : String, rest.data ≠ [] →
      check_field_access dsEx scopesNoRel (("base") ++ ("Id.") ++ rest)
          (SchemaPos.table refersT) = .error .filterSyntaxRelEnd) :=
  C2_shorthand dsEx scopesNoRel refersT baseT ("base") ("id") baseF identF
    (by decide) (by decide) (by decide) rfl rfl rfl rfl rfl rfl

end DsoApi
